import Mathlib

/-!
Verification development for the Langobridge admin dashboard.

The embedding below translates the client-side TypeScript into Lean:
vocabulary records become a structure whose nullable fields are `Option`s,
the field-completeness predicates of the two AI studios and the dashboard
become `Bool`-valued functions, the bulk-enhancement loop becomes a fold
over a list of per-record outcomes, the paginated table fetch becomes a
recursion over offset-based pages, and the small string utilities
(slug generation, AI-response fence cleanup, chapter parsing) are
modelled on `List Char` / `String` with JavaScript semantics
(`replace(/.../g)` removes all occurrences left to right, `trim` strips
surrounding whitespace, falsy strings are the empty string).
-/

namespace Langobridge

/-- `VerbForms` from `types/vocabulary.ts`: the {present, past, future,
polite} record attached to verbs. -/
structure VerbForms where
  present : String
  past : String
  future : String
  polite : String
deriving Repr, DecidableEq

/-- `VocabularyExample` from `types/vocabulary.ts`: a {korean, bangla}
example pair. -/
structure VocabularyExample where
  korean : String
  bangla : String
deriving Repr, DecidableEq

/-- `Vocabulary` from `types/vocabulary.ts`.  Fields that the code guards
with JavaScript truthiness tests (`!v.x`) are modelled as `Option`s; a
`none` stands for `null`/`undefined` coming back from the record store. -/
structure Vocabulary where
  id : String
  korean_word : String
  bangla_meaning : String
  romanization : Option String
  part_of_speech : Option String
  explanation : Option String
  examples : Option (List VocabularyExample)
  themes : Option (List String)
  chapters : Option (List Int)
  verb_forms : Option VerbForms
deriving Repr, DecidableEq

/-- JavaScript truthiness of a nullable string: `!s` is `true` exactly for
`null`/`undefined` and the empty string. -/
def strFalsy : Option String → Bool
  | none => true
  | some s => s == ""

/-- The `!v.explanation || v.explanation.length < 50` test shared by both
studios and the dashboard (`explanation` counts as missing when absent,
empty, or under 50 characters). -/
def noExplanationB (v : Vocabulary) : Bool :=
  match v.explanation with
  | none => true
  | some s => s == "" || s.length < 50

/-- The `!v.examples || v.examples.length === 0` test: `examples` counts as
missing when absent or empty. -/
def noExamplesB (v : Vocabulary) : Bool :=
  match v.examples with
  | none => true
  | some l => l.isEmpty

/-- The `!v.themes || v.themes.length === 0` test: `themes` counts as
missing when absent or empty. -/
def noThemesB (v : Vocabulary) : Bool :=
  match v.themes with
  | none => true
  | some l => l.isEmpty

/-- The `!v.chapters || v.chapters.length === 0` test used by the
`missing-chapters` filter mode. -/
def noChaptersB (v : Vocabulary) : Bool :=
  match v.chapters with
  | none => true
  | some l => l.isEmpty

/-- The `v.part_of_speech === "verb" && !v.verb_forms` test: `verb_forms`
counts as missing only for records whose part of speech is `"verb"`. -/
def noVerbFormsIfVerbB (v : Vocabulary) : Bool :=
  v.part_of_speech == some "verb" && v.verb_forms.isNone

/-- `hasMissingFields` of `OpenAiStudio.tsx` (lines 77-83): push
`"verb_forms"`, `"explanation"`, `"examples"` onto a `missing` list as
their tests fire; this is the list itself. -/
def openai_missingFields (v : Vocabulary) : List String :=
  (if noVerbFormsIfVerbB v then ["verb_forms"] else [])
    ++ (if noExplanationB v then ["explanation"] else [])
    ++ (if noExamplesB v then ["examples"] else [])

/-- `hasMissingFields` of `OpenAiStudio.tsx`: `missing.length > 0`. -/
def openai_hasMissingFields (v : Vocabulary) : Bool :=
  0 < (openai_missingFields v).length

/-- `hasMissingFields` of `GeminiStudio.tsx` (lines 84-94): unlike the
OpenAI studio it also tests romanization, part of speech and themes, and
returns the disjunction of all six per-field tests. -/
def gemini_hasMissingFields (v : Vocabulary) : Bool :=
  let isVerb := v.part_of_speech == some "verb"
  let noVerbForms := if isVerb then v.verb_forms.isNone else false
  let noExamples := noExamplesB v
  let noExplanation := noExplanationB v
  let noRomanization := strFalsy v.romanization
  let noPos := strFalsy v.part_of_speech
  let noThemes := noThemesB v
  noVerbForms || noExamples || noExplanation || noRomanization || noPos || noThemes

/-- The incompleteness test inside `fetchStats` of the dashboard page
(`allVocabData.filter(v => ...)`, lines 499-504): explanation, examples and
verb-forms-if-verb, disjunctively. -/
def dashboard_isIncomplete (v : Vocabulary) : Bool :=
  let noExpl := noExplanationB v
  let noEx := noExamplesB v
  let noVerb := v.part_of_speech == some "verb" && v.verb_forms.isNone
  noExpl || noEx || noVerb

/-- The dashboard's `incompleteCount`: number of fetched records passing
`dashboard_isIncomplete`. -/
def fetchStats_incompleteCount (vs : List Vocabulary) : Nat :=
  (vs.filter dashboard_isIncomplete).length

/-- The `missing-all-fields` branch of `filterVocabularies` in
`OpenAiStudio.tsx` (lines 116-124): a conjunction of five per-field tests
(`noVerbForms` defaults to `true` for non-verbs there). -/
def openai_missingAllPred (v : Vocabulary) : Bool :=
  let isVerb := v.part_of_speech == some "verb"
  let noVerbForms := if isVerb then v.verb_forms.isNone else true
  let noExamples := noExamplesB v
  let noExplanation := noExplanationB v
  let noRomanization := strFalsy v.romanization
  let noThemes := noThemesB v
  noVerbForms && noExamples && noExplanation && noRomanization && noThemes

/-- Spec-side definition, following the spec's words for the default
"all"-filter incompleteness predicate: incomplete iff at least one of
{verb_forms (only when part_of_speech is "verb"), examples, explanation}
is missing. -/
def defaultIncompleteSpec (v : Vocabulary) : Bool :=
  noVerbFormsIfVerbB v || noExamplesB v || noExplanationB v

/-- Spec-side definition, following the spec's words for the
"missing-all-fields" filter: ALL of {verb_forms-if-verb, examples,
explanation, romanization, themes} simultaneously missing. -/
def missingAllFieldsSpec (v : Vocabulary) : Bool :=
  (if v.part_of_speech == some "verb" then v.verb_forms.isNone else true)
    && noExamplesB v && noExplanationB v
    && strFalsy v.romanization && noThemesB v

/-- The ASCII whitespace characters relevant to this code base; models the
character class stripped by JavaScript's `String.prototype.trim`. -/
def isWsChar (c : Char) : Bool :=
  c == ' ' || c == '\n' || c == '\t' || c == '\r'

/-- Strip leading whitespace. -/
def trimLeft (l : List Char) : List Char :=
  l.dropWhile isWsChar

/-- JavaScript `trim` on character lists: strip leading and trailing
whitespace. -/
def trimChars (l : List Char) : List Char :=
  ((trimLeft l).reverse.dropWhile isWsChar).reverse

/-- JavaScript `trim` on strings. -/
def jsTrimStr (s : String) : String :=
  String.mk (trimChars s.toList)

/-- Recursive core of JavaScript `s.replace(/pat/g, '')` for a fixed
literal pattern `pat`: scan left to right, and on a match skip the matched
characters and resume after them (matches never overlap).  An empty
pattern never matches.  This version is the one used for reasoning; it
recurses on the scanned suffix. -/
def removeOccR (pat : List Char) (s : List Char) : List Char :=
  match s with
  | [] => []
  | c :: cs =>
    if pat.isPrefixOf (c :: cs) && !pat.isEmpty then
      removeOccR pat (cs.drop (pat.length - 1))
    else
      c :: removeOccR pat cs
termination_by s.length
decreasing_by
  · simp only [List.length_cons, List.length_drop]
    omega
  · simp [Nat.lt_succ_self]

/-- Fuel-driven twin of `removeOccR`; structural recursion on the fuel so
that concrete instances compute inside the kernel.  The fuel only pads the
recursion: `removeOcc` below always supplies enough of it. -/
def removeOccAux (pat : List Char) : Nat → List Char → List Char
  | 0, s => s
  | _ + 1, [] => []
  | fuel + 1, c :: cs =>
    if pat.isPrefixOf (c :: cs) && !pat.isEmpty then
      removeOccAux pat fuel (cs.drop (pat.length - 1))
    else
      c :: removeOccAux pat fuel cs

/-- JavaScript `s.replace(/pat/g, '')`. -/
def removeOcc (pat : List Char) (s : List Char) : List Char :=
  removeOccAux pat (s.length + 1) s

/-- `v.korean_word?.toLowerCase().includes(query)`-style substring test. -/
def jsIncludes (haystack needle : String) : Bool :=
  decide (needle.toList <:+: haystack.toList)

/-- The search and part-of-speech stages shared by both studios'
`filterVocabularies`: keyword match on korean/bangla when the query is
non-blank, then equality filter on part of speech unless it is `"all"`. -/
def searchAndPosFilter (searchQuery : String) (filterPos : String)
    (vocabularies : List Vocabulary) : List Vocabulary :=
  let filtered := vocabularies
  let filtered :=
    if jsTrimStr searchQuery ≠ "" then
      let query := searchQuery.toLower
      filtered.filter fun v =>
        jsIncludes v.korean_word.toLower query
          || jsIncludes v.bangla_meaning.toLower query
    else filtered
  if filterPos ≠ "all" then
    filtered.filter fun v => v.part_of_speech == some filterPos
  else filtered

/-- `FilterType` of `OpenAiStudio.tsx`. -/
inductive OpenAiFilterType where
  | all
  | missingAllFields
  | missingRomanization
  | missingPos
  | missingExplanation
  | missingExamples
  | missingThemes
  | missingChapters
  | missingVerb
deriving Repr, DecidableEq

/-- `FilterType` of `GeminiStudio.tsx` (adds `missing-id`; note its
`filterVocabularies` has no `missing-chapters` branch, so that filter
value leaves the list unchanged). -/
inductive GeminiFilterType where
  | all
  | missingAllFields
  | missingRomanization
  | missingPos
  | missingExplanation
  | missingExamples
  | missingThemes
  | missingChapters
  | missingVerb
  | missingId
deriving Repr, DecidableEq

/-- `filterVocabularies` of `OpenAiStudio.tsx` (lines 93-129). -/
def openai_filterVocabularies (searchQuery : String) (filterPos : String)
    (filterType : OpenAiFilterType) (vocabularies : List Vocabulary) :
    List Vocabulary :=
  let filtered := searchAndPosFilter searchQuery filterPos vocabularies
  match filterType with
  | .missingVerb =>
      filtered.filter fun v =>
        v.part_of_speech == some "verb" && v.verb_forms.isNone
  | .missingExamples => filtered.filter noExamplesB
  | .missingExplanation => filtered.filter noExplanationB
  | .missingRomanization => filtered.filter fun v => strFalsy v.romanization
  | .missingPos => filtered.filter fun v => strFalsy v.part_of_speech
  | .missingThemes => filtered.filter noThemesB
  | .missingChapters => filtered.filter noChaptersB
  | .missingAllFields => filtered.filter openai_missingAllPred
  | .all => filtered.filter openai_hasMissingFields

/-- `filterVocabularies` of `GeminiStudio.tsx` (lines 96-133); both its
`missing-all-fields` and `all` branches filter by `hasMissingFields`. -/
def gemini_filterVocabularies (searchQuery : String) (filterPos : String)
    (filterType : GeminiFilterType) (vocabularies : List Vocabulary) :
    List Vocabulary :=
  let filtered := searchAndPosFilter searchQuery filterPos vocabularies
  match filterType with
  | .missingVerb =>
      filtered.filter fun v =>
        v.part_of_speech == some "verb" && v.verb_forms.isNone
  | .missingExamples => filtered.filter noExamplesB
  | .missingExplanation => filtered.filter noExplanationB
  | .missingRomanization => filtered.filter fun v => strFalsy v.romanization
  | .missingId => filtered.filter fun v => v.id == "" || v.id == "NaN"
  | .missingPos => filtered.filter fun v => strFalsy v.part_of_speech
  | .missingThemes => filtered.filter noThemesB
  | .missingAllFields => filtered.filter gemini_hasMissingFields
  | .all => filtered.filter gemini_hasMissingFields
  | .missingChapters => filtered

/-! ## Bulk-enhancement orchestrator

`handleEnhanceSelected` in both studios walks the selected records in
order.  Per record it runs the enrichment call and the store update inside
one `try`; either failure lands in the same `catch`, which records an
error status and lets the loop continue.  We model the combined
enrichment-plus-update outcome of each record as an `Except String Unit`
supplied with the record id, and fold the loop body over the list.  The
`BatchOutcome` captures the state after the loop: the final per-record
statuses (in input order), the success and error counters used in the
final summary toast, and the list of inter-record delay suspensions. -/

/-- Final status of a record in the `results` list. -/
inductive EnhanceStatus where
  | pending
  | processing
  | success
  | error (msg : String)
deriving Repr, DecidableEq

/-- One loop iteration's input: the record's id together with the outcome
of its `enhanceVocabulary` call plus supabase update. -/
abbrev BatchItem := String × Except String Unit

/-- State after the whole batch loop. -/
structure BatchOutcome where
  results : List (String × EnhanceStatus)
  successCount : Nat
  errorCount : Nat
  delays : List Nat
deriving Repr, DecidableEq

/-- The `try`/`catch` body of one iteration: on success mark the record
`success` and bump `successCount`; on failure mark it `error` with the
captured message and bump `errorCount`. -/
def processOne (acc : BatchOutcome) (it : BatchItem) : BatchOutcome :=
  match it.2 with
  | .ok _ =>
      { acc with
        results := acc.results ++ [(it.1, EnhanceStatus.success)]
        successCount := acc.successCount + 1 }
  | .error m =>
      { acc with
        results := acc.results ++ [(it.1, EnhanceStatus.error m)]
        errorCount := acc.errorCount + 1 }

/-- The `for` loop of `handleEnhanceSelected`: process the current record,
then — whenever it is not the last one (`i < selected.length - 1`) —
suspend for the fixed `delayMs` before continuing. -/
def enhanceGo (delayMs : Nat) : List BatchItem → BatchOutcome → BatchOutcome
  | [], acc => acc
  | it :: rest, acc =>
    let acc1 := processOne acc it
    let acc2 :=
      if rest.isEmpty then acc1
      else { acc1 with delays := acc1.delays ++ [delayMs] }
    enhanceGo delayMs rest acc2

/-- `handleEnhanceSelected` over a list of per-record outcomes, starting
from empty results and zero counters. -/
def runEnhanceBatch (delayMs : Nat) (items : List BatchItem) : BatchOutcome :=
  enhanceGo delayMs items ⟨[], 0, 0, []⟩

/-- The `setTimeout` delay constant of the OpenAI studio (line 210). -/
def openai_interItemDelayMs : Nat := 500

/-- The `setTimeout` delay constant of the Gemini studio (line 229). -/
def gemini_interItemDelayMs : Nat := 1000

/-- Final status a record ends with, as a function of its outcome. -/
def statusOf : Except String Unit → EnhanceStatus
  | .ok _ => EnhanceStatus.success
  | .error m => EnhanceStatus.error m

/-! ## Paginated full-table fetch

`fetchResources`, `fetchBlogs` and `fetchVocabulary` share the same loop:
`PAGE_SIZE = 1000`, `from = 0`, `to = 999`; fetch `range(from, to)`
(inclusive on both ends, so `to - from + 1 = PAGE_SIZE` rows), stop on an
empty page, append, stop when a page is short, else advance both cursors
by `PAGE_SIZE`.  The table is modelled as the ordered list of its rows, so
`range(from, to)` is `drop from` followed by `take PAGE_SIZE`. -/

/-- One `range(start, start + pageSize - 1)` query against the ordered
table contents. -/
def supabaseRange (table : List α) (start pageSize : Nat) : List α :=
  (table.drop start).take pageSize

/-- The accumulation loop of the paginated fetch. -/
def fetchLoop (table : List α) (pageSize : Nat) (start : Nat)
    (acc : List α) : List α :=
  let data := supabaseRange table start pageSize
  if data.isEmpty then acc
  else if data.length < pageSize then acc ++ data
  else fetchLoop table pageSize (start + pageSize) (acc ++ data)
termination_by table.length - start
decreasing_by
  rename_i h1 h2
  unfold data at h1 h2
  simp only [supabaseRange, List.isEmpty_iff_length_eq_zero, List.length_take,
    List.length_drop] at h1 h2
  omega

/-- `fetchAll` for one table: start at offset 0 with page size 1000. -/
def fetchAllRows (table : List α) : List α :=
  fetchLoop table 1000 0 []

/-- `ResourceItem` of the resources page. -/
structure ResourceItem where
  id : Int
  title : String
  category : Option String
  description : Option String
  tags : Option (List String)
  file_path : String
  thumbnail_path : Option String
  file_size : Option Int
  created_at : String
deriving Repr, DecidableEq

/-- `BlogItem` of the blogs page. -/
structure BlogItem where
  id : Int
  title : String
  slug : String
  content : String
  thumbnail_url : Option String
  category : Option String
  tags : Option (List String)
  published_at : String
  view_count : Int
deriving Repr, DecidableEq

/-- `VocabularyItem` of the vocabulary page (numeric id, unlike the
studios' `Vocabulary`). -/
structure VocabularyItem where
  id : Int
  korean_word : String
  bangla_meaning : String
  romanization : Option String
  part_of_speech : Option String
  explanation : String
  examples : List VocabularyExample
  themes : Option (List String)
  chapters : Option (List Int)
  verb_forms : Option VerbForms
deriving Repr, DecidableEq

/-- `fetchResources` (`part_000` lines 49-78): paginated fetch over the
resources table ordered by `created_at` descending. -/
def fetchResources (resourcesTable : List ResourceItem) : List ResourceItem :=
  fetchAllRows resourcesTable

/-- `fetchBlogs` (`part_001` lines 55-84): paginated fetch over the blogs
table ordered by `id` descending. -/
def fetchBlogs (blogsTable : List BlogItem) : List BlogItem :=
  fetchAllRows blogsTable

/-- `fetchVocabulary` (`part_001` lines 558-587): paginated fetch over the
vocabulary table ordered by `id` descending. -/
def fetchVocabulary (vocabularyTable : List VocabularyItem) :
    List VocabularyItem :=
  fetchAllRows vocabularyTable

/-! ## Blog slug generation (`part_001` lines 86-91, 114-125) -/

/-- The character class `[a-z0-9]` of the slug regex. -/
def isSlugAlnum (c : Char) : Bool :=
  ('a' ≤ c && c ≤ 'z') || ('0' ≤ c && c ≤ '9')

mutual

/-- `replace(/[^a-z0-9]+/g, '-')`: every maximal run of characters outside
`[a-z0-9]` becomes a single hyphen.  The scanning state: not currently
inside a non-alphanumeric run. -/
def collapseRuns : List Char → List Char
  | [] => []
  | c :: cs =>
    if isSlugAlnum c then c :: collapseRuns cs
    else '-' :: collapseAfterRun cs

/-- Scanning state inside a non-alphanumeric run (its hyphen is already
emitted): skip until the next alphanumeric character. -/
def collapseAfterRun : List Char → List Char
  | [] => []
  | c :: cs =>
    if isSlugAlnum c then c :: collapseRuns cs
    else collapseAfterRun cs

end

/-- `replace(/(^-|-$)/g, '')` removes one hyphen at the very start: the
anchored `^-` can match only at position 0. -/
def dropOneLeadingHyphen : List Char → List Char
  | [] => []
  | c :: rest => if c == '-' then rest else c :: rest

/-- `replace(/(^-|-$)/g, '')` removes one hyphen at the very end: the
anchored `-$` can match only at the last position. -/
def dropOneTrailingHyphen : List Char → List Char
  | [] => []
  | [c] => if c == '-' then [] else [c]
  | c :: rest => c :: dropOneTrailingHyphen rest

/-- `generateSlug` of the blogs page: lowercase, collapse non-alphanumeric
runs to hyphens, strip the anchored leading/trailing hyphen. -/
def generateSlug (title : List Char) : List Char :=
  dropOneTrailingHyphen
    (dropOneLeadingHyphen (collapseRuns (title.map Char.toLower)))

/-- `generateSlug` on strings. -/
def generateSlugStr (title : String) : String :=
  String.mk (generateSlug title.toList)

/-- The slug chosen on save: `formData.slug || generateSlug(formData.title)`
(the user-entered slug is used verbatim whenever it is non-empty). -/
def blogSlugOnSave (enteredSlug title : String) : String :=
  if enteredSlug == "" then generateSlugStr title else enteredSlug

/-! ## Vocabulary create/edit form payload (`part_001` lines 611-628) -/

/-- Form state of the vocabulary add/edit dialog. -/
structure VocabFormState where
  koreanWord : String
  banglaMeaning : String
  romanization : String
  partOfSpeech : String
  explanation : String
  examples : List VocabularyExample
  selectedThemes : List String
  chapters : String
  verbForms : VerbForms
deriving Repr, DecidableEq

/-- The payload object built by `handleSubmit`. -/
structure VocabPayload where
  korean_word : String
  bangla_meaning : String
  romanization : Option String
  part_of_speech : Option String
  explanation : String
  examples : List VocabularyExample
  themes : Option (List String)
  chapters : Option (List Int)
  verb_forms : Option VerbForms
deriving Repr, DecidableEq

/-- JavaScript `String.prototype.split` with a single-character separator:
pieces between separators, keeping empty pieces (`"".split(',')` is
`[""]`). -/
def splitOnChar (sep : Char) : List Char → List (List Char)
  | [] => [[]]
  | c :: cs =>
    if c == sep then [] :: splitOnChar sep cs
    else
      match splitOnChar sep cs with
      | [] => [[c]]
      | piece :: rest => (c :: piece) :: rest

/-- `parseInt(c)` on an already-trimmed entry, restricted to the decimal
fragment JavaScript applies here: an optional sign followed by a longest
digit prefix; `none` models `NaN` (no digits found). -/
def jsParseInt (s : String) : Option Int :=
  let core := fun (l : List Char) =>
    let ds := l.takeWhile Char.isDigit
    if ds.isEmpty then none
    else some (ds.foldl (fun a c => a * 10 + (c.toNat - '0'.toNat)) 0)
  match s.toList with
  | '-' :: rest => (core rest).map fun n => -(n : Int)
  | '+' :: rest => (core rest).map fun n => (n : Int)
  | l => (core l).map fun n => (n : Int)

/-- The chapters field of the payload:
`chapters ? chapters.split(',').map(c => {const parsed = parseInt(c.trim());
return isNaN(parsed) ? null : parsed}).filter(Boolean) : null`.
`filter(Boolean)` keeps exactly the truthy entries, i.e. it drops the
`null`s (failed parses) and any entry equal to `0`. -/
def parseChapters (chapters : String) : Option (List Int) :=
  if chapters == "" then none
  else
    some
      (((splitOnChar ',' chapters.toList).map fun c =>
          jsParseInt (String.mk (trimChars c))).filterMap fun parsed =>
        match parsed with
        | none => none
        | some n => if n == 0 then none else some n)

/-- The payload built by `handleSubmit` of the vocabulary form. -/
def buildVocabPayload (f : VocabFormState) : VocabPayload :=
  { korean_word := f.koreanWord
    bangla_meaning := f.banglaMeaning
    romanization := if f.romanization == "" then none else some f.romanization
    part_of_speech := if f.partOfSpeech == "" then none else some f.partOfSpeech
    explanation := f.explanation
    examples := f.examples.filter fun ex => !(jsTrimStr ex.korean == "")
    themes := if 0 < f.selectedThemes.length then some f.selectedThemes else none
    chapters := parseChapters f.chapters
    verb_forms := if f.partOfSpeech == "verb" then some f.verbForms else none }

/-! ## AI-response cleanup (`enhanceVocabularyService` lines 62-64,
`GeminiStudio.tsx` lines 195-198)

`content.replace(/```json/g, '').replace(/```/g, '').trim()`. -/

/-- The seven-character fence-opening pattern. -/
def fenceJsonPat : List Char := "```json".toList

/-- The three-character fence pattern. -/
def fencePat : List Char := "```".toList

/-- The cleanup applied to an AI response before `JSON.parse`: remove all
occurrences of the json fence opener, then all remaining triple-backtick
fences, then trim. -/
def cleanup (content : List Char) : List Char :=
  trimChars (removeOcc fencePat (removeOcc fenceJsonPat content))

/-- A response wrapped in markdown ```json fences, the shape named by the
spec's property: the fence lines surround the payload. -/
def wrapJsonFence (t : List Char) : List Char :=
  fenceJsonPat ++ '\n' :: (t ++ '\n' :: fencePat)

/-! ## A JSON value parser

The studios hand the cleaned response to the JavaScript built-in
`JSON.parse`.  To state "parses to the same value" we model that parser on
the fragment the service exchanges: null, booleans, (integer) numbers,
strings with simple escapes, arrays and objects, with interleaved
whitespace; surrounding whitespace is ignored as `JSON.parse` does. -/

/-- Parsed JSON values. -/
inductive JsonVal where
  | jnull
  | jbool (b : Bool)
  | jnum (n : Int)
  | jstr (s : List Char)
  | jarr (elems : List JsonVal)
  | jobj (fields : List (List Char × JsonVal))

/-- Skip JSON interleaving whitespace. -/
def skipWs (l : List Char) : List Char :=
  l.dropWhile isWsChar

/-- Translation of the common escape characters inside JSON strings
(`\u` sequences are outside the modelled fragment). -/
def escChar (c : Char) : Char :=
  if c == 'n' then '\n'
  else if c == 't' then '\t'
  else if c == 'r' then '\r'
  else c

/-- Parse the body of a JSON string after the opening quote, returning the
decoded characters and the input after the closing quote. -/
def parseStrBody : List Char → Option (List Char × List Char)
  | [] => none
  | '"' :: rest => some ([], rest)
  | '\\' :: c :: rest =>
    match parseStrBody rest with
    | some (cs, r) => some (escChar c :: cs, r)
    | none => none
  | c :: rest =>
    match parseStrBody rest with
    | some (cs, r) => some (c :: cs, r)
    | none => none

/-- Parse an integer literal (optional minus, longest digit prefix). -/
def parseNumFrom (s : List Char) : Option (JsonVal × List Char) :=
  match s with
  | '-' :: rest =>
    let ds := rest.takeWhile Char.isDigit
    if ds.isEmpty then none
    else
      some (JsonVal.jnum (-((ds.foldl (fun a c => a * 10 + (c.toNat - '0'.toNat)) 0 : Nat) : Int)),
        rest.drop ds.length)
  | _ =>
    let ds := s.takeWhile Char.isDigit
    if ds.isEmpty then none
    else
      some (JsonVal.jnum ((ds.foldl (fun a c => a * 10 + (c.toNat - '0'.toNat)) 0 : Nat) : Int),
        s.drop ds.length)

mutual

/-- Parse one JSON value; `fuel` bounds the recursion depth. -/
def parseVal : Nat → List Char → Option (JsonVal × List Char)
  | 0, _ => none
  | fuel + 1, s =>
    match skipWs s with
    | 'n' :: 'u' :: 'l' :: 'l' :: rest => some (JsonVal.jnull, rest)
    | 't' :: 'r' :: 'u' :: 'e' :: rest => some (JsonVal.jbool true, rest)
    | 'f' :: 'a' :: 'l' :: 's' :: 'e' :: rest => some (JsonVal.jbool false, rest)
    | '"' :: rest =>
      match parseStrBody rest with
      | some (cs, r) => some (JsonVal.jstr cs, r)
      | none => none
    | '[' :: rest =>
      (match skipWs rest with
       | ']' :: r => some (JsonVal.jarr [], r)
       | _ =>
         match parseElems fuel rest with
         | some (vs, r) => some (JsonVal.jarr vs, r)
         | none => none)
    | '{' :: rest =>
      (match skipWs rest with
       | '}' :: r => some (JsonVal.jobj [], r)
       | _ =>
         match parseFields fuel rest with
         | some (fs, r) => some (JsonVal.jobj fs, r)
         | none => none)
    | c :: rest =>
      if c == '-' || c.isDigit then parseNumFrom (c :: rest) else none
    | [] => none

/-- Parse a non-empty comma-separated element list up to `]`. -/
def parseElems : Nat → List Char → Option (List JsonVal × List Char)
  | 0, _ => none
  | fuel + 1, s =>
    match parseVal fuel s with
    | none => none
    | some (v, r) =>
      match skipWs r with
      | ',' :: r2 =>
        (match parseElems fuel r2 with
         | some (vs, r3) => some (v :: vs, r3)
         | none => none)
      | ']' :: r2 => some ([v], r2)
      | _ => none

/-- Parse a non-empty comma-separated field list up to `}`. -/
def parseFields : Nat → List Char →
    Option (List (List Char × JsonVal) × List Char)
  | 0, _ => none
  | fuel + 1, s =>
    match skipWs s with
    | '"' :: rest =>
      (match parseStrBody rest with
       | none => none
       | some (key, r) =>
         match skipWs r with
         | ':' :: r2 =>
           (match parseVal fuel r2 with
            | none => none
            | some (v, r3) =>
              match skipWs r3 with
              | ',' :: r4 =>
                (match parseFields fuel r4 with
                 | some (fs, r5) => some ((key, v) :: fs, r5)
                 | none => none)
              | '}' :: r4 => some ([(key, v)], r4)
              | _ => none)
         | _ => none)
    | _ => none

end

/-- The modelled `JSON.parse`: trim surrounding whitespace, parse one
value, and require the remaining input to be whitespace only. -/
def parseJson (s : List Char) : Option JsonVal :=
  let u := trimChars s
  match parseVal (u.length + 1) u with
  | some (v, rest) => if (skipWs rest).isEmpty then some v else none
  | none => none

/-- Projection used to compare parses of string-valued responses. -/
def jstrOf : Option JsonVal → Option (List Char)
  | some (JsonVal.jstr s) => some s
  | _ => none

/-! ## Concrete records used as test inputs -/

/-- An explanation text comfortably over the 50-character threshold. -/
def longExplanation : String :=
  "a sufficiently long usage explanation that clearly exceeds the threshold"

/-- A record whose verb_forms/examples/explanation are all complete and
that has themes and a part of speech, but no romanization. -/
def vRomMissing : Vocabulary :=
  { id := "1"
    korean_word := "가다"
    bangla_meaning := "yaoya"
    romanization := none
    part_of_speech := some "noun"
    explanation := some longExplanation
    examples := some [{ korean := "집에 가요", bangla := "basay jai" }]
    themes := some ["daily_life"]
    chapters := some [1]
    verb_forms := none }

/-- A verb with no verb forms but with every other field filled in. -/
def vVerbNoForms : Vocabulary :=
  { id := "2"
    korean_word := "먹다"
    bangla_meaning := "khaoya"
    romanization := some "meokda"
    part_of_speech := some "verb"
    explanation := some longExplanation
    examples := some [{ korean := "밥을 먹어요", bangla := "bhat khai" }]
    themes := some ["food"]
    chapters := some [2]
    verb_forms := none }

/-- A record missing only its explanation. -/
def vOnlyExplanationMissing : Vocabulary :=
  { id := "3"
    korean_word := "물"
    bangla_meaning := "pani"
    romanization := some "mul"
    part_of_speech := some "noun"
    explanation := none
    examples := some [{ korean := "물 주세요", bangla := "pani din" }]
    themes := some ["food"]
    chapters := some [1]
    verb_forms := none }

/-- A record with every enhanceable field missing. -/
def vAllMissing : Vocabulary :=
  { id := "4"
    korean_word := "하다"
    bangla_meaning := "kora"
    romanization := none
    part_of_speech := none
    explanation := none
    examples := none
    themes := none
    chapters := none
    verb_forms := none }

/-- A complete non-verb record without verb forms. -/
def vNounNoForms : Vocabulary :=
  { id := "5"
    korean_word := "집"
    bangla_meaning := "bari"
    romanization := some "jip"
    part_of_speech := some "noun"
    explanation := some longExplanation
    examples := some [{ korean := "집에 있어요", bangla := "barite achi" }]
    themes := some ["daily_life"]
    chapters := some [1]
    verb_forms := none }

/-- A filled-in form state for a non-verb with stale verb-form text, one
whitespace-only example, and a chapters field containing a zero. -/
def sampleForm : VocabFormState :=
  { koreanWord := "집"
    banglaMeaning := "bari"
    romanization := "jip"
    partOfSpeech := "noun"
    explanation := "a noun"
    examples := [{ korean := "집에 있어요", bangla := "barite achi" },
                 { korean := "   ", bangla := "whitespace only" }]
    selectedThemes := ["daily_life"]
    chapters := "0, 5"
    verbForms := { present := "가요", past := "갔어요", future := "갈 거예요",
                   polite := "갑니다" } }

/-! ## Field-completeness predicates: helper lemmas -/

/-- The OpenAI studio's `hasMissingFields` agrees with the spec's
three-field disjunction. -/
theorem openai_hasMissing_eq_spec (v : Vocabulary) :
    openai_hasMissingFields v = defaultIncompleteSpec v := by
  unfold openai_hasMissingFields openai_missingFields defaultIncompleteSpec
  cases hb1 : noVerbFormsIfVerbB v <;> cases hb2 : noExplanationB v <;>
    cases hb3 : noExamplesB v <;> simp [hb1, hb2, hb3]

/-- The dashboard's incompleteness test agrees with the spec's three-field
disjunction. -/
theorem dashboard_eq_spec (v : Vocabulary) :
    dashboard_isIncomplete v = defaultIncompleteSpec v := by
  unfold dashboard_isIncomplete defaultIncompleteSpec noVerbFormsIfVerbB
  cases hb1 : noExplanationB v <;> cases hb2 : noExamplesB v <;>
    cases hb3 : v.part_of_speech == some "verb" && v.verb_forms.isNone <;>
    simp [hb1, hb2, hb3]

/-- The Gemini studio's `hasMissingFields` is the spec's disjunction
extended with the romanization, part-of-speech and themes tests. -/
theorem gemini_hasMissing_eq_spec_or_extras (v : Vocabulary) :
    gemini_hasMissingFields v
      = (defaultIncompleteSpec v || strFalsy v.romanization
          || strFalsy v.part_of_speech || noThemesB v) := by
  unfold gemini_hasMissingFields defaultIncompleteSpec noVerbFormsIfVerbB
  cases hb0 : v.part_of_speech == some "verb" <;>
    simp [hb0, Bool.or_assoc, Bool.or_comm, Bool.or_left_comm]

/-- The OpenAI studio's `missing-all-fields` conjunction agrees with the
spec's five-field conjunction. -/
theorem openai_missingAll_eq_spec (v : Vocabulary) :
    openai_missingAllPred v = missingAllFieldsSpec v := rfl

/-- The record of the two studios never reads romanization or themes in
the three-field predicates, so updating those fields leaves the OpenAI
predicate unchanged. -/
theorem openai_hasMissing_ignores_rom_themes (v : Vocabulary)
    (r : Option String) (t : Option (List String)) :
    openai_hasMissingFields { v with romanization := r, themes := t }
      = openai_hasMissingFields v := rfl

/-- Likewise for the dashboard incompleteness test. -/
theorem dashboard_ignores_rom_themes (v : Vocabulary)
    (r : Option String) (t : Option (List String)) :
    dashboard_isIncomplete { v with romanization := r, themes := t }
      = dashboard_isIncomplete v := rfl

/-- C1 counterexample: the claim fails on the code in two ways.  First,
the Gemini studio's default "all"-filter predicate flags `vRomMissing`, a
record whose verb_forms/examples/explanation are all complete and that
merely lacks romanization, so the claimed "iff" is false there.  Second,
even the OpenAI studio's predicate is not independent of part_of_speech:
changing only that field on `vVerbNoForms` flips the predicate. -/
theorem C1_counterexample :
    (gemini_hasMissingFields vRomMissing = true
      ∧ defaultIncompleteSpec vRomMissing = false)
    ∧ (openai_hasMissingFields vVerbNoForms = true
      ∧ openai_hasMissingFields { vVerbNoForms with part_of_speech := some "noun" }
          = false) := by
  decide

/-- C1 (amended): the OpenAI studio's and the dashboard's default
incompleteness predicates classify a record incomplete iff at least one of
{verb_forms (only when part_of_speech is "verb"), examples, explanation}
is missing, and both are independent of romanization and themes (though
not of part_of_speech, which gates the verb_forms test); the Gemini
studio's default predicate additionally flags missing romanization,
part_of_speech, or themes. -/
theorem C1_default_incompleteness (v : Vocabulary) :
    (openai_hasMissingFields v = defaultIncompleteSpec v)
    ∧ (dashboard_isIncomplete v = defaultIncompleteSpec v)
    ∧ (∀ (r : Option String) (t : Option (List String)),
        openai_hasMissingFields { v with romanization := r, themes := t }
          = openai_hasMissingFields v)
    ∧ (∀ (r : Option String) (t : Option (List String)),
        dashboard_isIncomplete { v with romanization := r, themes := t }
          = dashboard_isIncomplete v)
    ∧ (gemini_hasMissingFields v
        = (defaultIncompleteSpec v || strFalsy v.romanization
            || strFalsy v.part_of_speech || noThemesB v)) :=
  ⟨openai_hasMissing_eq_spec v, dashboard_eq_spec v,
    fun r t => openai_hasMissing_ignores_rom_themes v r t,
    fun r t => dashboard_ignores_rom_themes v r t,
    gemini_hasMissing_eq_spec_or_extras v⟩

/-- C2 counterexample: in the Gemini studio the `missing-all-fields`
filter mode selects `vRomMissing` even though its examples, explanation
and themes are all present — that studio's branch reuses the disjunctive
`hasMissingFields`, not the claimed five-field conjunction. -/
theorem C2_counterexample :
    gemini_filterVocabularies "" "all" GeminiFilterType.missingAllFields
        [vRomMissing] = [vRomMissing]
    ∧ missingAllFieldsSpec vRomMissing = false := by
  decide

/-- C2 (amended): in the OpenAI studio the `missing-all-fields` mode is
the five-field conjunction of the spec and is strictly stronger than the
default disjunctive predicate; in the Gemini studio the
`missing-all-fields` mode instead coincides with the default "all"
filter. -/
theorem C2_missing_all_fields (v : Vocabulary) (vs : List Vocabulary) :
    (openai_missingAllPred v = missingAllFieldsSpec v)
    ∧ (openai_missingAllPred v = true → openai_hasMissingFields v = true)
    ∧ (openai_hasMissingFields vOnlyExplanationMissing = true
        ∧ openai_missingAllPred vOnlyExplanationMissing = false)
    ∧ (gemini_filterVocabularies "" "all" GeminiFilterType.missingAllFields vs
        = gemini_filterVocabularies "" "all" GeminiFilterType.all vs) := by
  refine ⟨openai_missingAll_eq_spec v, ?_, by decide, rfl⟩
  intro h
  rw [openai_hasMissing_eq_spec]
  unfold openai_missingAllPred at h
  unfold defaultIncompleteSpec
  cases hb : noExamplesB v
  · rw [hb] at h
    simp at h
  · simp [hb]

/-- C2 witness: the amended theorem applied to the concrete all-missing
record, discharging the implication's hypothesis there. -/
theorem C2_missing_all_fields_witness :
    openai_hasMissingFields vAllMissing = true :=
  (C2_missing_all_fields vAllMissing []).2.1 (by decide)

/-! ## Bulk-enhancement orchestrator: lemmas -/

/-- Closed form of the enhancement loop: statuses follow the per-record
outcomes in input order, the counters count the ok/error outcomes, and one
fixed delay is appended after every record except the last. -/
theorem enhanceGo_spec (d : Nat) (items : List BatchItem) (acc : BatchOutcome) :
    enhanceGo d items acc =
      { results := acc.results ++ items.map fun it => (it.1, statusOf it.2)
        successCount :=
          acc.successCount + (items.filter fun it => it.2.isOk).length
        errorCount :=
          acc.errorCount + (items.filter fun it => !it.2.isOk).length
        delays := acc.delays ++ List.replicate (items.length - 1) d } := by
  induction items generalizing acc with
  | nil => simp [enhanceGo]
  | cons it rest ih =>
    rw [enhanceGo, ih]
    cases rest with
    | nil =>
      cases h2 : it.2 <;>
        simp [processOne, statusOf, h2, Except.isOk, Except.toBool,
          List.filter_cons]
    | cons it2 rest2 =>
      cases h2 : it.2 <;>
        simp [processOne, statusOf, h2, Except.isOk, Except.toBool,
          List.filter_cons, List.replicate_succ] <;>
        omega

/-- The whole batch from the initial state. -/
theorem runEnhanceBatch_spec (d : Nat) (items : List BatchItem) :
    runEnhanceBatch d items =
      { results := items.map fun it => (it.1, statusOf it.2)
        successCount := (items.filter fun it => it.2.isOk).length
        errorCount := (items.filter fun it => !it.2.isOk).length
        delays := List.replicate (items.length - 1) d } := by
  rw [runEnhanceBatch, enhanceGo_spec]
  simp

/-- All-ok outcome lists map to all-success statuses. -/
theorem statusOf_map_ok (l : List BatchItem)
    (h : ∀ it ∈ l, it.2.isOk = true) :
    (l.map fun it => (it.1, statusOf it.2))
      = l.map fun it => (it.1, EnhanceStatus.success) := by
  apply List.map_congr_left
  intro it hit
  have := h it hit
  cases h2 : it.2 with
  | ok u => simp [statusOf]
  | error m => rw [h2] at this; simp [Except.isOk, Except.toBool] at this

/-- Dropping everything up to and including the distinguished middle
element of `M ++ x :: N` leaves `N`. -/
theorem dropAppendCons {γ : Type} {M : List γ} {n : Nat} (h : M.length = n)
    (x : γ) (N : List γ) : (M ++ x :: N).drop (n + 1) = N := by
  subst h
  rw [List.append_cons]
  exact List.drop_left' (by simp)

/-- C3: in a batch over `pre ++ [failing record] ++ post` where every
record of `pre` and `post` succeeds, the loop still processes every record
in input order (the results list has full length and lists the records in
input order), the final summary counts `k - 1` successes and `1` error,
and the statuses before and after the failing position coincide with
those of the all-success run of the same batch. -/
theorem C3_single_failure (d : Nat) (pre post : List BatchItem)
    (badId msg : String)
    (hpre : ∀ it ∈ pre, it.2.isOk = true)
    (hpost : ∀ it ∈ post, it.2.isOk = true) :
    (runEnhanceBatch d (pre ++ (badId, Except.error msg) :: post)).results.length
        = (pre ++ (badId, Except.error msg) :: post).length
    ∧ (runEnhanceBatch d (pre ++ (badId, Except.error msg) :: post)).successCount
        = (pre ++ (badId, Except.error msg) :: post).length - 1
    ∧ (runEnhanceBatch d (pre ++ (badId, Except.error msg) :: post)).errorCount
        = 1
    ∧ (runEnhanceBatch d (pre ++ (badId, Except.error msg) :: post)).results
        = (pre.map fun it => (it.1, EnhanceStatus.success))
            ++ (badId, EnhanceStatus.error msg)
              :: (post.map fun it => (it.1, EnhanceStatus.success))
    ∧ (runEnhanceBatch d (pre ++ (badId, Except.error msg) :: post)).results.take
          pre.length
        = (runEnhanceBatch d (pre ++ (badId, Except.ok ()) :: post)).results.take
          pre.length
    ∧ (runEnhanceBatch d (pre ++ (badId, Except.error msg) :: post)).results.drop
          (pre.length + 1)
        = (runEnhanceBatch d (pre ++ (badId, Except.ok ()) :: post)).results.drop
          (pre.length + 1) := by
  have hepre : pre.filter (fun it => !it.2.isOk) = [] :=
    List.filter_eq_nil_iff.mpr fun it hit => by simp [hpre it hit]
  have hepost : post.filter (fun it => !it.2.isOk) = [] :=
    List.filter_eq_nil_iff.mpr fun it hit => by simp [hpost it hit]
  have hfpre : pre.filter (fun it => it.2.isOk) = pre :=
    List.filter_eq_self.mpr hpre
  have hfpost : post.filter (fun it => it.2.isOk) = post :=
    List.filter_eq_self.mpr hpost
  have hres :
      (runEnhanceBatch d (pre ++ (badId, Except.error msg) :: post)).results
        = (pre.map fun it => (it.1, EnhanceStatus.success))
            ++ (badId, EnhanceStatus.error msg)
              :: (post.map fun it => (it.1, EnhanceStatus.success)) := by
    rw [runEnhanceBatch_spec]
    show (((pre ++ (badId, Except.error msg) :: post).map
        fun it => (it.1, statusOf it.2)) = _)
    simp only [List.map_append, List.map_cons]
    rw [statusOf_map_ok pre hpre, statusOf_map_ok post hpost]
    rfl
  have hresOk :
      (runEnhanceBatch d (pre ++ (badId, Except.ok ()) :: post)).results
        = (pre.map fun it => (it.1, EnhanceStatus.success))
            ++ (badId, EnhanceStatus.success)
              :: (post.map fun it => (it.1, EnhanceStatus.success)) := by
    rw [runEnhanceBatch_spec]
    show (((pre ++ (badId, Except.ok ()) :: post).map
        fun it => (it.1, statusOf it.2)) = _)
    simp only [List.map_append, List.map_cons]
    rw [statusOf_map_ok pre hpre, statusOf_map_ok post hpost]
    rfl
  have hM : (pre.map fun it => (it.1, EnhanceStatus.success)).length
      = pre.length := by simp
  refine ⟨?_, ?_, ?_, hres, ?_, ?_⟩
  · rw [runEnhanceBatch_spec]
    simp
  · rw [runEnhanceBatch_spec]
    show ((pre ++ (badId, Except.error msg) :: post).filter
        fun it => it.2.isOk).length = _
    simp only [List.filter_append, List.filter_cons, hfpre, hfpost]
    simp only [List.length_append, List.length_cons]
    norm_num [Except.isOk, Except.toBool]
  · rw [runEnhanceBatch_spec]
    show ((pre ++ (badId, Except.error msg) :: post).filter
        fun it => !it.2.isOk).length = _
    simp only [List.filter_append, List.filter_cons, hepre, hepost]
    norm_num [Except.isOk, Except.toBool]
  · rw [hres, hresOk, List.take_left' hM, List.take_left' hM]
  · rw [hres, hresOk, dropAppendCons hM, dropAppendCons hM]

/-- C3 witness: the theorem applied to a concrete three-record batch whose
middle record fails; the all-success side conditions are discharged by
computation. -/
theorem C3_single_failure_witness :
    (runEnhanceBatch 500
        ([("a", Except.ok ())] ++ ("b", Except.error "boom")
          :: [("c", Except.ok ())])).errorCount = 1 :=
  (C3_single_failure 500 [("a", Except.ok ())] [("c", Except.ok ())] "b" "boom"
    (by decide) (by decide)).2.2.1

/-- C7: over any batch (whatever each record's outcome), the inter-record
delay list is exactly `k - 1` copies of the studio's constant — 500 ms for
the OpenAI studio and 1000 ms for the Gemini studio — so exactly `k - 1`
delay suspensions occur, with a duration independent of success or
failure and with no retry entries. -/
theorem C7_fixed_delays (items : List BatchItem) :
    (runEnhanceBatch openai_interItemDelayMs items).delays
        = List.replicate (items.length - 1) 500
    ∧ (runEnhanceBatch gemini_interItemDelayMs items).delays
        = List.replicate (items.length - 1) 1000 := by
  rw [runEnhanceBatch_spec, runEnhanceBatch_spec]
  exact ⟨rfl, rfl⟩

/-! ## Paginated fetch: lemmas -/

/-- For any positive page size, the pagination loop returns the
accumulator followed by every row from the current offset on. -/
theorem fetchLoop_eq {α : Type} (table : List α) (p : Nat) (hp : 0 < p) :
    ∀ (n start : Nat) (acc : List α), table.length - start ≤ n →
      fetchLoop table p start acc = acc ++ table.drop start := by
  intro n
  induction n with
  | zero =>
    intro start acc h
    have hdrop : table.drop start = [] :=
      List.drop_eq_nil_of_le (by omega)
    rw [fetchLoop]
    simp [supabaseRange, hdrop]
  | succ n ih =>
    intro start acc h
    rw [fetchLoop]
    simp only [supabaseRange]
    by_cases h1 : ((table.drop start).take p).isEmpty
    · have hdrop : table.drop start = [] := by
        rcases List.take_eq_nil_iff.mp (List.isEmpty_iff.mp h1) with hc | hc
        · omega
        · exact hc
      simp [h1, hdrop]
    · rw [if_neg h1]
      by_cases h2 : ((table.drop start).take p).length < p
      · rw [if_pos h2]
        have hd : (table.drop start).length ≤ p := by
          rw [List.length_take] at h2
          omega
        rw [List.take_of_length_le hd]
      · rw [if_neg h2]
        have hlen : p ≤ table.length - start := by
          rw [List.length_take, List.length_drop] at h2
          omega
        rw [ih (start + p) (acc ++ (table.drop start).take p) (by omega)]
        rw [List.append_assoc]
        congr 1
        rw [← List.drop_drop]
        exact List.take_append_drop p (table.drop start)

/-- `fetchAll` returns the whole table. -/
theorem fetchAllRows_eq {α : Type} (table : List α) :
    fetchAllRows table = table := by
  rw [fetchAllRows, fetchLoop_eq table 1000 (by omega) table.length 0 []
    (by omega)]
  simp

/-- C4: the paginated full-table fetch with page size 1000 returns every
row of the table exactly once, for each of the three tables; hence over
`N` records it returns exactly `N` records, in particular for
`N = 0, 999, 1000, 1001, 2500`. -/
theorem C4_paginated_fetch (resources : List ResourceItem)
    (blogs : List BlogItem) (vocab : List VocabularyItem) :
    fetchResources resources = resources
    ∧ fetchBlogs blogs = blogs
    ∧ fetchVocabulary vocab = vocab
    ∧ (∀ n : Nat, (fetchAllRows (List.range n)).length = n)
    ∧ (fetchAllRows (List.range 0)).length = 0
    ∧ (fetchAllRows (List.range 999)).length = 999
    ∧ (fetchAllRows (List.range 1000)).length = 1000
    ∧ (fetchAllRows (List.range 1001)).length = 1001
    ∧ (fetchAllRows (List.range 2500)).length = 2500 := by
  have hn : ∀ n : Nat, (fetchAllRows (List.range n)).length = n := by
    intro n
    rw [fetchAllRows_eq]
    exact List.length_range n
  exact ⟨fetchAllRows_eq resources, fetchAllRows_eq blogs,
    fetchAllRows_eq vocab, hn, hn 0, hn 999, hn 1000, hn 1001, hn 2500⟩

/-! ## Slug generation: lemmas -/

/-- An alphanumeric slug character is not a hyphen. -/
theorem alnum_ne_hyphen {c : Char} (h : isSlugAlnum c = true) :
    (c == '-') = false := by
  cases hb : c == '-'
  · rfl
  · have hceq : c = '-' := eq_of_beq hb
    subst hceq
    exact absurd h (by decide)

/-- The run-skipping state emits nothing or an alphanumeric head. -/
theorem collapseAfterRun_shape (s : List Char) :
    collapseAfterRun s = []
      ∨ ∃ a r', collapseAfterRun s = a :: r' ∧ isSlugAlnum a = true := by
  induction s with
  | nil => exact Or.inl rfl
  | cons c cs ih =>
    by_cases hc : isSlugAlnum c
    · exact Or.inr ⟨c, collapseRuns cs, by simp [collapseAfterRun, hc], hc⟩
    · simpa [collapseAfterRun, hc] using ih

/-- Consing an alphanumeric character preserves the no-trailing-hyphen
property of the hyphen-stripped list. -/
theorem tail_cons_alnum (c : Char) (l : List Char) (hc : isSlugAlnum c = true)
    (hl : (dropOneTrailingHyphen l).getLast? ≠ some '-') :
    (dropOneTrailingHyphen (c :: l)).getLast? ≠ some '-' := by
  cases l with
  | nil =>
    simp [dropOneTrailingHyphen, alnum_ne_hyphen hc]
    intro hx
    subst hx
    exact absurd hc (by decide)
  | cons y ys =>
    show ((c :: dropOneTrailingHyphen (y :: ys)).getLast? ≠ some '-')
    cases hw : dropOneTrailingHyphen (y :: ys) with
    | nil =>
      simp
      intro hx
      subst hx
      exact absurd hc (by decide)
    | cons z zs =>
      rw [List.getLast?_cons_cons, ← hw]
      exact hl

/-- Consing the emitted hyphen of a run preserves the property, given the
remainder is empty or starts alphanumerically. -/
theorem tail_cons_hyphen (r : List Char)
    (hshape : r = [] ∨ ∃ a r', r = a :: r' ∧ isSlugAlnum a = true)
    (hr : (dropOneTrailingHyphen r).getLast? ≠ some '-') :
    (dropOneTrailingHyphen ('-' :: r)).getLast? ≠ some '-' := by
  rcases hshape with hnil | ⟨a, r', har, ha⟩
  · subst hnil
    simp [dropOneTrailingHyphen]
  · subst har
    show ((('-' : Char) :: dropOneTrailingHyphen (a :: r')).getLast? ≠ some '-')
    have hw : dropOneTrailingHyphen (a :: r') ≠ [] := by
      cases r' with
      | nil => simp [dropOneTrailingHyphen, alnum_ne_hyphen ha]
      | cons b bs => simp [dropOneTrailingHyphen]
    cases hw2 : dropOneTrailingHyphen (a :: r') with
    | nil => exact absurd hw2 hw
    | cons z zs =>
      rw [List.getLast?_cons_cons, ← hw2]
      exact hr

/-- Neither scanning state of the collapse ever yields a list that still
ends with a hyphen once the anchored trailing hyphen is stripped. -/
theorem collapse_no_trailing (s : List Char) :
    (dropOneTrailingHyphen (collapseRuns s)).getLast? ≠ some '-'
    ∧ (dropOneTrailingHyphen (collapseAfterRun s)).getLast? ≠ some '-' := by
  induction s with
  | nil => simp [collapseRuns, collapseAfterRun, dropOneTrailingHyphen]
  | cons c cs ih =>
    by_cases hc : isSlugAlnum c
    · constructor
      · rw [show collapseRuns (c :: cs) = c :: collapseRuns cs by
          simp [collapseRuns, hc]]
        exact tail_cons_alnum c _ hc ih.1
      · rw [show collapseAfterRun (c :: cs) = c :: collapseRuns cs by
          simp [collapseAfterRun, hc]]
        exact tail_cons_alnum c _ hc ih.1
    · constructor
      · rw [show collapseRuns (c :: cs) = '-' :: collapseAfterRun cs by
          simp [collapseRuns, hc]]
        exact tail_cons_hyphen _ (collapseAfterRun_shape cs) ih.2
      · rw [show collapseAfterRun (c :: cs) = collapseAfterRun cs by
          simp [collapseAfterRun, hc]]
        exact ih.2

/-- After stripping the anchored leading hyphen, the collapsed list is
empty or starts alphanumerically. -/
theorem slug_head_shape (s : List Char) :
    dropOneLeadingHyphen (collapseRuns s) = []
      ∨ ∃ a r', dropOneLeadingHyphen (collapseRuns s) = a :: r'
          ∧ isSlugAlnum a = true := by
  cases s with
  | nil => exact Or.inl rfl
  | cons c cs =>
    by_cases hc : isSlugAlnum c
    · refine Or.inr ⟨c, collapseRuns cs, ?_, hc⟩
      simp [collapseRuns, hc, dropOneLeadingHyphen, alnum_ne_hyphen hc]
    · have : dropOneLeadingHyphen (collapseRuns (c :: cs))
          = collapseAfterRun cs := by
        simp [collapseRuns, hc, dropOneLeadingHyphen]
      rw [this]
      exact collapseAfterRun_shape cs

/-- Stripping the trailing hyphen only ever empties the list or keeps its
head. -/
theorem dropTrail_head (l : List Char) :
    (dropOneTrailingHyphen l).head? = none
      ∨ (dropOneTrailingHyphen l).head? = l.head? := by
  cases l with
  | nil => exact Or.inl rfl
  | cons c rest =>
    cases rest with
    | nil =>
      by_cases hc : (c == '-') = true
      · simp [dropOneTrailingHyphen, hc]
      · simp only [dropOneTrailingHyphen]
        rw [if_neg hc]
        exact Or.inr rfl
    | cons y ys => exact Or.inr rfl

/-- A generated slug never starts with a hyphen. -/
theorem generateSlug_no_leading (title : List Char) :
    (generateSlug title).head? ≠ some '-' := by
  unfold generateSlug
  rcases slug_head_shape (title.map Char.toLower) with hnil | ⟨a, r', hx, ha⟩
  · rw [hnil]
    simp [dropOneTrailingHyphen]
  · rw [hx]
    rcases dropTrail_head (a :: r') with hh | hh
    · rw [hh]
      simp
    · rw [hh]
      intro hcontra
      simp only [List.head?_cons, Option.some.injEq] at hcontra
      subst hcontra
      exact absurd ha (by decide)

/-- A generated slug never ends with a hyphen. -/
theorem generateSlug_no_trailing (title : List Char) :
    (generateSlug title).getLast? ≠ some '-' := by
  unfold generateSlug
  cases hlow : title.map Char.toLower with
  | nil => simp [collapseRuns, dropOneLeadingHyphen, dropOneTrailingHyphen]
  | cons c cs =>
    by_cases hc : isSlugAlnum c
    · have hx : dropOneLeadingHyphen (collapseRuns (c :: cs))
          = collapseRuns (c :: cs) := by
        simp [collapseRuns, hc, dropOneLeadingHyphen, alnum_ne_hyphen hc]
      rw [hx]
      exact (collapse_no_trailing (c :: cs)).1
    · have hx : dropOneLeadingHyphen (collapseRuns (c :: cs))
          = collapseAfterRun cs := by
        simp [collapseRuns, hc, dropOneLeadingHyphen]
      rw [hx]
      exact (collapse_no_trailing cs).2

/-- C6: slug generation sends the two reference titles to their expected
slugs; a generated slug never starts or ends with a hyphen; and on save
the generated slug is used exactly when the entered slug field is empty,
otherwise the entered slug is used verbatim. -/
theorem C6_slug (title entered realTitle : String) :
    generateSlugStr "How to Master Korean Particles!"
        = "how-to-master-korean-particles"
    ∧ generateSlugStr "  Leading/Trailing--Dashes  "
        = "leading-trailing-dashes"
    ∧ (generateSlug title.toList).head? ≠ some '-'
    ∧ (generateSlug title.toList).getLast? ≠ some '-'
    ∧ blogSlugOnSave "" realTitle = generateSlugStr realTitle
    ∧ (entered ≠ "" → blogSlugOnSave entered realTitle = entered) := by
  refine ⟨by decide, by decide, generateSlug_no_leading title.toList,
    generateSlug_no_trailing title.toList, rfl, ?_⟩
  intro h
  simp [blogSlugOnSave, h]

/-- C6 witness: the implication applied at a concrete non-empty entered
slug. -/
theorem C6_slug_witness :
    blogSlugOnSave "my-slug" "Whatever Title" = "my-slug" :=
  (C6_slug "x" "my-slug" "Whatever Title").2.2.2.2.2 (by decide)

/-- C8: for a record whose part of speech is not "verb", the absence of
verb forms never flags it: the `missing` list of the OpenAI studio never
contains `"verb_forms"`, and the OpenAI, dashboard and Gemini
completeness predicates are all invariant under replacing the record's
verb_forms by anything (present or absent). -/
theorem C8_verb_forms_only_for_verbs (v : Vocabulary)
    (h : v.part_of_speech ≠ some "verb") :
    "verb_forms" ∉ openai_missingFields v
    ∧ (∀ w : Option VerbForms,
        openai_hasMissingFields { v with verb_forms := w }
          = openai_hasMissingFields v)
    ∧ (∀ w : Option VerbForms,
        dashboard_isIncomplete { v with verb_forms := w }
          = dashboard_isIncomplete v)
    ∧ (∀ w : Option VerbForms,
        gemini_hasMissingFields { v with verb_forms := w }
          = gemini_hasMissingFields v) := by
  have hpos : (v.part_of_speech == some "verb") = false := by
    cases hb : v.part_of_speech == some "verb"
    · rfl
    · exact absurd (eq_of_beq hb) h
  refine ⟨?_, ?_, ?_, ?_⟩
  · unfold openai_missingFields noVerbFormsIfVerbB
    rw [hpos]
    intro hmem
    simp only [Bool.false_and, if_false, List.nil_append] at hmem
    rcases List.mem_append.mp hmem with hm | hm <;>
      · by_cases hcond : (noExplanationB v) = true <;>
          by_cases hcond2 : (noExamplesB v) = true <;>
          simp_all
  · intro w
    unfold openai_hasMissingFields openai_missingFields noVerbFormsIfVerbB
      noExplanationB noExamplesB
    rw [hpos]
    rfl
  · intro w
    unfold dashboard_isIncomplete noExplanationB noExamplesB
    rw [hpos]
    rfl
  · intro w
    unfold gemini_hasMissingFields noExamplesB noExplanationB noThemesB
    rw [hpos]
    rfl

/-- C8 witness: applied at the concrete complete noun record. -/
theorem C8_verb_forms_only_for_verbs_witness :
    "verb_forms" ∉ openai_missingFields vNounNoForms :=
  (C8_verb_forms_only_for_verbs vNounNoForms (by decide)).1

/-- C9: the single-record create/edit form's payload has `verb_forms =
null` whenever the selected part of speech is not "verb" — even when
verb-form text is still present in the form state — and its examples list
never contains an example whose korean text trims to the empty string. -/
theorem C9_payload_invariants (f : VocabFormState) :
    (f.partOfSpeech ≠ "verb" → (buildVocabPayload f).verb_forms = none)
    ∧ (∀ ex ∈ (buildVocabPayload f).examples, ¬jsTrimStr ex.korean = "") := by
  constructor
  · intro h
    unfold buildVocabPayload
    have hb : (f.partOfSpeech == "verb") = false := by
      cases hx : f.partOfSpeech == "verb"
      · rfl
      · exact absurd (eq_of_beq hx) h
    simp [hb]
  · intro ex hex
    have hmem := List.mem_filter.mp hex
    simpa using hmem.2

/-- C9 witness: applied at the concrete filled-in non-verb form state;
both hypotheses are discharged by computation. -/
theorem C9_payload_invariants_witness :
    (buildVocabPayload sampleForm).verb_forms = none
    ∧ ¬jsTrimStr (VocabularyExample.korean
          { korean := "집에 있어요", bangla := "barite achi" }) = "" :=
  ⟨(C9_payload_invariants sampleForm).1 (by decide),
    (C9_payload_invariants sampleForm).2
      { korean := "집에 있어요", bangla := "barite achi" } (by decide)⟩

/-- C10: the chapters parser keeps exactly the entries whose trimmed text
parses to a non-zero integer: `"0, 5"` is persisted as `[5]`, a
non-numeric entry such as `"abc"` is silently dropped, and a stored
chapters list never contains 0. -/
theorem C10_chapters_parsing :
    parseChapters "0, 5" = some [5]
    ∧ parseChapters "abc, 5" = some [5]
    ∧ (∀ (s : String) (l : List Int), parseChapters s = some l →
        (0 : Int) ∉ l) := by
  refine ⟨by decide, by decide, ?_⟩
  intro s l hparse hzero
  unfold parseChapters at hparse
  by_cases hs : (s == "") = true
  · rw [if_pos hs] at hparse
    exact Option.noConfusion hparse
  · rw [if_neg hs] at hparse
    have hl := Option.some.inj hparse
    subst hl
    rcases List.mem_filterMap.mp hzero with ⟨parsed, _, hf⟩
    cases parsed with
    | none => exact Option.noConfusion hf
    | some n =>
      dsimp only at hf
      by_cases hn : (n == 0) = true
      · rw [if_pos hn] at hf
        exact Option.noConfusion hf
      · rw [if_neg hn] at hf
        have := Option.some.inj hf
        subst this
        simp at hn

/-- C10 witness: the no-zero clause applied at the concrete input
`"0, 5"`. -/
theorem C10_chapters_parsing_witness : (0 : Int) ∉ [(5 : Int)] :=
  C10_chapters_parsing.2.2 "0, 5" [5] (by decide)

/-! ## AI-response cleanup: lemmas -/

/-- The fuel-driven scanner agrees with the recursive scanner whenever the
fuel exceeds the input length. -/
theorem removeOccAux_eq (pat : List Char) :
    ∀ (fuel : Nat) (s : List Char), s.length < fuel →
      removeOccAux pat fuel s = removeOccR pat s := by
  intro fuel
  induction fuel with
  | zero => intro s h; omega
  | succ fuel ih =>
    intro s h
    cases s with
    | nil => simp [removeOccAux, removeOccR]
    | cons c cs =>
      rw [removeOccAux, removeOccR]
      by_cases hcond : (pat.isPrefixOf (c :: cs) && !pat.isEmpty) = true
      · rw [if_pos hcond, if_pos hcond]
        apply ih
        have := List.length_drop (pat.length - 1) cs
        simp only [List.length_cons] at h
        omega
      · rw [if_neg hcond, if_neg hcond]
        congr 1
        apply ih
        simp only [List.length_cons] at h
        omega

/-- `removeOcc` is the recursive scanner. -/
theorem removeOcc_eq_R (pat s : List Char) :
    removeOcc pat s = removeOccR pat s :=
  removeOccAux_eq pat (s.length + 1) s (by omega)

/-- A prefix of `a ++ c :: b` either contains `c` or is a prefix of `a`. -/
theorem prefix_append_cons {p a b : List Char} {c : Char}
    (h : p <+: (a ++ c :: b)) : c ∈ p ∨ p <+: a := by
  induction a generalizing p with
  | nil =>
    cases p with
    | nil => exact Or.inr ⟨[], rfl⟩
    | cons q p' =>
      rcases h with ⟨t, ht⟩
      injection ht with h1 h2
      subst h1
      exact Or.inl (List.mem_cons_self _ _)
  | cons x a' ih =>
    cases p with
    | nil => exact Or.inr ⟨x :: a', rfl⟩
    | cons q p' =>
      rcases h with ⟨t, ht⟩
      injection ht with h1 h2
      rcases ih ⟨t, h2⟩ with hc | hp
      · exact Or.inl (List.mem_cons_of_mem _ hc)
      · rcases hp with ⟨u, hu⟩
        exact Or.inr ⟨u, by rw [h1, List.cons_append, hu]⟩

/-- An infix of `a ++ c :: b` contains `c`, or lies inside `a`, or lies
inside `b`. -/
theorem infix_append_cons {p a b : List Char} {c : Char}
    (h : p <:+: (a ++ c :: b)) : c ∈ p ∨ p <:+: a ∨ p <:+: b := by
  induction a with
  | nil =>
    rcases List.infix_cons_iff.mp h with hp | hi
    · rcases prefix_append_cons (a := []) hp with hc | hnil
      · exact Or.inl hc
      · rcases hnil with ⟨t, ht⟩
        have : p = [] := by
          cases p with
          | nil => rfl
          | cons q p' => exact absurd ht (by simp)
        subst this
        exact Or.inr (Or.inl ⟨[], [], rfl⟩)
    · exact Or.inr (Or.inr hi)
  | cons x a' ih =>
    rcases List.infix_cons_iff.mp h with hp | hi
    · rcases prefix_append_cons (a := x :: a') hp with hc | hxp
      · exact Or.inl hc
      · rcases hxp with ⟨t, ht⟩
        exact Or.inr (Or.inl ⟨[], t, by simpa using ht⟩)
    · rcases ih hi with hc | hia | hib
      · exact Or.inl hc
      · rcases hia with ⟨s1, t1, h1⟩
        exact Or.inr (Or.inl ⟨x :: s1, t1, by rw [← h1]; rfl⟩)
      · exact Or.inr (Or.inr hib)

/-- When the pattern occurs nowhere in `s`, the scanner changes nothing. -/
theorem removeOccR_no_match {p s : List Char} (h : ¬ p <:+: s) :
    removeOccR p s = s := by
  induction s with
  | nil => rw [removeOccR]
  | cons c cs ih =>
    rw [removeOccR]
    have hcond : (p.isPrefixOf (c :: cs) && !p.isEmpty) = false := by
      cases hb : p.isPrefixOf (c :: cs)
      · rfl
      · have hpre : p <+: (c :: cs) := List.isPrefixOf_iff_prefix.mp hb
        rcases hpre with ⟨t, ht⟩
        exact absurd ⟨[], t, by simpa using ht⟩ h
    rw [if_neg (by simp [hcond])]
    have hcs : ¬ p <:+: cs := fun hi =>
      h (List.infix_cons_iff.mpr (Or.inr hi))
    rw [ih hcs]

/-- A match at the very start is removed and scanning resumes after it. -/
theorem removeOccR_head_match {p rest : List Char} (hp : p ≠ []) :
    removeOccR p (p ++ rest) = removeOccR p rest := by
  cases p with
  | nil => exact absurd rfl hp
  | cons q p' =>
    rw [show ((q :: p') ++ rest) = q :: (p' ++ rest) from rfl, removeOccR]
    have hcond : ((q :: p').isPrefixOf (q :: (p' ++ rest))
        && !(q :: p').isEmpty) = true := by
      have hpre : (q :: p') <+: (q :: (p' ++ rest)) :=
        ⟨rest, by simp⟩
      simp [List.isPrefixOf_iff_prefix.mpr hpre]
    rw [if_pos hcond]
    congr 1
    simp

/-- The scanner walks through a region free of matches: if `c` is not a
pattern character and the pattern does not occur in `a`, everything before
and including `c` is kept verbatim. -/
theorem removeOccR_append_cons {p a b : List Char} {c : Char}
    (hc : c ∉ p) (ha : ¬ p <:+: a) :
    removeOccR p (a ++ c :: b) = a ++ c :: removeOccR p b := by
  induction a with
  | nil =>
    show removeOccR p (c :: b) = c :: removeOccR p b
    rw [removeOccR]
    have hcond : (p.isPrefixOf (c :: b) && !p.isEmpty) = false := by
      cases hpp : p with
      | nil => simp
      | cons q p' =>
        cases hb : (q :: p').isPrefixOf (c :: b)
        · simp
        · have hpre : (q :: p') <+: (c :: b) :=
            List.isPrefixOf_iff_prefix.mp hb
          rcases hpre with ⟨t, ht⟩
          injection ht with h1 h2
          subst h1
          rw [hpp] at hc
          exact absurd (List.mem_cons_self _ _) hc
    rw [if_neg (by simp [hcond])]
  | cons x a' ih =>
    show removeOccR p (x :: (a' ++ c :: b)) = x :: (a' ++ c :: removeOccR p b)
    rw [removeOccR]
    have hcond : (p.isPrefixOf (x :: (a' ++ c :: b)) && !p.isEmpty) = false := by
      cases hb : p.isPrefixOf (x :: (a' ++ c :: b))
      · rfl
      · have hpre : p <+: ((x :: a') ++ c :: b) :=
          List.isPrefixOf_iff_prefix.mp hb
        rcases prefix_append_cons hpre with hcin | hpx
        · exact absurd hcin hc
        · rcases hpx with ⟨t, ht⟩
          exact absurd ⟨[], t, by simpa using ht⟩ ha
    rw [if_neg (by simp [hcond])]
    have ha' : ¬ p <:+: a' := fun hi =>
      ha (List.infix_cons_iff.mpr (Or.inr hi))
    rw [ih ha']

/-- `dropWhile` yields nothing or a head that fails the predicate. -/
theorem dropWhile_shape (q : Char → Bool) (l : List Char) :
    l.dropWhile q = []
      ∨ ∃ c cs, l.dropWhile q = c :: cs ∧ q c = false := by
  induction l with
  | nil => exact Or.inl rfl
  | cons x xs ih =>
    by_cases hx : q x = true
    · simpa [List.dropWhile_cons, hx] using ih
    · exact Or.inr ⟨x, xs, by simp [List.dropWhile_cons, hx],
        by simpa using hx⟩

/-- `dropWhile` is idempotent. -/
theorem dropWhile_idem (q : Char → Bool) (l : List Char) :
    (l.dropWhile q).dropWhile q = l.dropWhile q := by
  rcases dropWhile_shape q l with hnil | ⟨c, cs, hcons, hc⟩
  · rw [hnil]
    rfl
  · rw [hcons, List.dropWhile_cons, hc]
    simp

/-- A list whose head fails the predicate is untouched by `dropWhile`. -/
theorem dropWhile_eq_self_of_head {q : Char → Bool} {l : List Char}
    (h : ∀ c, l.head? = some c → q c = false) :
    l.dropWhile q = l := by
  cases l with
  | nil => rfl
  | cons x xs =>
    rw [List.dropWhile_cons, h x rfl]
    simp

/-- A leading whitespace character does not change the trim. -/
theorem trimChars_cons_ws {x : List Char} {c : Char}
    (hc : isWsChar c = true) : trimChars (c :: x) = trimChars x := by
  unfold trimChars trimLeft
  rw [List.dropWhile_cons, hc]
  simp

/-- A trailing whitespace character does not change the trim. -/
theorem trimChars_append_ws {x : List Char} {c : Char}
    (hc : isWsChar c = true) : trimChars (x ++ [c]) = trimChars x := by
  unfold trimChars trimLeft
  rw [List.dropWhile_append]
  by_cases he : (x.dropWhile isWsChar).isEmpty
  · rw [if_pos he]
    rw [List.isEmpty_iff.mp he]
    simp [List.dropWhile_cons, hc]
  · rw [if_neg he]
    rw [List.reverse_append]
    simp [List.dropWhile_cons, hc]

/-- Trimming is idempotent. -/
theorem trimChars_idem (l : List Char) :
    trimChars (trimChars l) = trimChars l := by
  rcases dropWhile_shape isWsChar (l.dropWhile isWsChar).reverse
    with hw | ⟨c, cs, hw, hcw⟩
  · have h0 : trimChars l = [] := by
      unfold trimChars trimLeft
      rw [hw]
      rfl
    show trimChars (((l.dropWhile isWsChar).reverse.dropWhile
        isWsChar).reverse) = _
    rw [hw, h0]
    rfl
  · have hne : (l.dropWhile isWsChar).reverse.dropWhile isWsChar ≠ [] := by
      rw [hw]
      exact List.cons_ne_nil c cs
    -- the head of the trimmed list fails the whitespace test
    have hm : ∀ a, (l.dropWhile isWsChar).head? = some a →
        isWsChar a = false := by
      intro a hhead
      rcases dropWhile_shape isWsChar l with hnil | ⟨a', as', hcons, ha'⟩
      · rw [hnil] at hhead
        exact absurd hhead (by simp)
      · rw [hcons] at hhead
        simp only [List.head?_cons, Option.some.injEq] at hhead
        subst hhead
        exact ha'
    -- the last character of the right-trimmed reverse is that head
    have hsuffix : (l.dropWhile isWsChar).reverse.dropWhile isWsChar
        <:+ (l.dropWhile isWsChar).reverse := List.dropWhile_suffix _
    rcases hsuffix with ⟨pre, hpre⟩
    have hlast : ((l.dropWhile isWsChar).reverse.dropWhile
        isWsChar).getLast? = (l.dropWhile isWsChar).head? := by
      have h1 : (pre ++ (l.dropWhile isWsChar).reverse.dropWhile
            isWsChar).getLast?
          = ((l.dropWhile isWsChar).reverse.dropWhile isWsChar).getLast? :=
        List.getLast?_append_of_ne_nil pre hne
      rw [hpre] at h1
      rw [← h1, List.getLast?_reverse]
    show trimChars (((l.dropWhile isWsChar).reverse.dropWhile
        isWsChar).reverse) = _
    unfold trimChars trimLeft
    -- left trim of the reversed trimmed list is the identity
    have hhead2 : ∀ a,
        (((l.dropWhile isWsChar).reverse.dropWhile isWsChar).reverse).head?
          = some a → isWsChar a = false := by
      intro a hh
      rw [List.head?_reverse, hlast] at hh
      exact hm a hh
    rw [dropWhile_eq_self_of_head hhead2, List.reverse_reverse,
      dropWhile_idem]

/-- A prefix of a cons is empty or starts with the same head. -/
theorem prefix_cons_head {p l : List Char} {c : Char}
    (h : p <+: (c :: l)) : p = [] ∨ p.head? = some c := by
  cases p with
  | nil => exact Or.inl rfl
  | cons q p' =>
    rcases h with ⟨t, ht⟩
    injection ht with h1 h2
    subst h1
    exact Or.inr rfl

/-- The json fence opener does not occur in the fence-free payload
surrounded by its newline-and-fence suffix. -/
theorem fenceJson_absent {t : List Char} (h : ¬ fencePat <:+: t) :
    ¬ fenceJsonPat <:+: ('\n' :: (t ++ '\n' :: fencePat)) := by
  intro hi
  rcases List.infix_cons_iff.mp hi with hp | hi2
  · rcases prefix_cons_head hp with hnil | hhead
    · exact absurd hnil (by decide)
    · exact absurd hhead (by decide)
  · rcases infix_append_cons (a := t) hi2 with hcin | hit | hif
    · exact absurd hcin (by decide)
    · rcases hit with ⟨s1, t1, h1⟩
      have hsplit : fencePat ++ "json".toList = fenceJsonPat := by decide
      exact h ⟨s1, "json".toList ++ t1, by
        rw [← h1, ← hsplit]
        simp⟩
    · have hlen := List.IsInfix.length_le hif
      have e1 : fenceJsonPat.length = 7 := by decide
      have e2 : fencePat.length = 3 := by decide
      omega

/-- First replacement pass over the wrapped response: only the fence
opener goes away. -/
theorem removeOccR_wrap_first {t : List Char} (h : ¬ fencePat <:+: t) :
    removeOccR fenceJsonPat (wrapJsonFence t)
      = '\n' :: (t ++ '\n' :: fencePat) := by
  rw [show wrapJsonFence t
      = fenceJsonPat ++ ('\n' :: (t ++ '\n' :: fencePat)) from rfl]
  rw [removeOccR_head_match (by decide)]
  exact removeOccR_no_match (fenceJson_absent h)

/-- Second replacement pass: only the closing fence goes away. -/
theorem removeOccR_wrap_second {t : List Char} (h : ¬ fencePat <:+: t) :
    removeOccR fencePat ('\n' :: (t ++ '\n' :: fencePat))
      = '\n' :: (t ++ ['\n']) := by
  have hstep : removeOccR fencePat ('\n' :: (t ++ '\n' :: fencePat))
      = '\n' :: removeOccR fencePat (t ++ '\n' :: fencePat) := by
    rw [removeOccR]
    have hcond : fencePat.isPrefixOf ('\n' :: (t ++ '\n' :: fencePat))
        = false := by
      cases hb : fencePat.isPrefixOf ('\n' :: (t ++ '\n' :: fencePat))
      · rfl
      · rcases prefix_cons_head (List.isPrefixOf_iff_prefix.mp hb)
          with hnil | hhead
        · exact absurd hnil (by decide)
        · exact absurd hhead (by decide)
    rw [if_neg (by simp [hcond])]
  rw [hstep,
    removeOccR_append_cons (by decide : ('\n' : Char) ∉ fencePat) h]
  have hself : removeOccR fencePat fencePat = [] := by
    have h2 : removeOccR fencePat (fencePat ++ [])
        = removeOccR fencePat [] := removeOccR_head_match (by decide)
    rw [List.append_nil] at h2
    rw [h2, removeOccR]
  rw [hself]

/-- The cleanup of a fenced fence-free response is exactly the trimmed
payload. -/
theorem cleanup_wrap {t : List Char} (h : ¬ fencePat <:+: t) :
    cleanup (wrapJsonFence t) = trimChars t := by
  unfold cleanup
  rw [removeOcc_eq_R, removeOcc_eq_R, removeOccR_wrap_first h,
    removeOccR_wrap_second h, trimChars_cons_ws (by decide)]
  exact trimChars_append_ws (by decide)

/-- The modelled `JSON.parse` ignores surrounding whitespace. -/
theorem parseJson_trim (t : List Char) :
    parseJson (trimChars t) = parseJson t := by
  unfold parseJson
  rw [trimChars_idem]

/-- C5 counterexample: for the JSON text `"```"` (a string literal whose
value is three backticks) the fence cleanup also destroys the backticks
inside the string, so the cleaned fenced response parses to the empty
string rather than to the original value — the claim's universally
quantified parse equality is false. -/
theorem C5_counterexample :
    jstrOf (parseJson "\"```\"".toList) = some "```".toList
    ∧ jstrOf (parseJson (cleanup (wrapJsonFence "\"```\"".toList)))
        = some "".toList
    ∧ parseJson (cleanup (wrapJsonFence "\"```\"".toList))
        ≠ parseJson "\"```\"".toList := by
  refine ⟨by decide, by decide, ?_⟩
  intro heq
  have h1 : jstrOf (parseJson (cleanup (wrapJsonFence "\"```\"".toList)))
      = some "".toList := by decide
  rw [heq] at h1
  have h2 : jstrOf (parseJson "\"```\"".toList) = some "```".toList := by
    decide
  rw [h2] at h1
  exact absurd h1 (by decide)

/-- C5 (amended): for every JSON text `t` in which the fence token \x60\x60\x60
does not occur, the cleanup of `t` wrapped in markdown json fences is
exactly the whitespace-trim of `t`, and therefore parses to the same value
as `t` itself. -/
theorem C5_fence_cleanup (t : List Char) (h : ¬ fencePat <:+: t) :
    cleanup (wrapJsonFence t) = trimChars t
    ∧ parseJson (cleanup (wrapJsonFence t)) = parseJson t := by
  refine ⟨cleanup_wrap h, ?_⟩
  rw [cleanup_wrap h]
  exact parseJson_trim t

/-- C5 witness: the amended theorem at a concrete fence-free JSON array. -/
theorem C5_fence_cleanup_witness :
    cleanup (wrapJsonFence "[1, 2]".toList) = trimChars "[1, 2]".toList
    ∧ parseJson (cleanup (wrapJsonFence "[1, 2]".toList))
        = parseJson "[1, 2]".toList :=
  C5_fence_cleanup "[1, 2]".toList (by decide)

end Langobridge
